import Mathlib

/-!
# Verification of the LinkedIn crawler subsystem

Shallow embedding of `src/linkedin_crawler.py` (query building, the two
search strategies, result normalization, URL canonicalization, deduplication
and the unified fallback policy) together with proofs about the claims of
the specification.

Python string primitives (`str.strip`, `str.join`, `str.split`,
`str.title`, `str.replace`, substring tests, `urllib.parse.unquote`,
`urllib.parse.urlparse` path extraction) are modelled by executable
functions on `String` / `List Char` below, following CPython semantics for
the inputs the crawler feeds them (ASCII-oriented; `strip` removes
whitespace, `split` is leftmost non-overlapping on a non-empty separator).
-/

set_option maxHeartbeats 1000000

namespace Crawler

/-- Python truthiness fallback `a or b` where `a` is `dict.get(...)` (an
optional string) and `b` is a string: an absent or empty `a` yields `b`. -/
def pyOrD (a : Option String) (b : String) : String :=
  match a with
  | some s => if s = "" then b else s
  | none => b

/-- Python truthiness fallback `a or b` on two optional strings: an absent
or empty `a` yields `b`. -/
def pyOrOpt (a b : Option String) : Option String :=
  match a with
  | some s => if s = "" then b else some s
  | none => b

/-- Model of Python `str.strip()`: drop leading and trailing whitespace. -/
def pyStrip (s : String) : String :=
  String.mk (((s.toList.dropWhile Char.isWhitespace).reverse.dropWhile
    Char.isWhitespace).reverse)

/-- Model of Python `sep.join(xs)`. -/
def pyJoin (sep : String) : List String → String
  | [] => ""
  | [x] => x
  | x :: y :: xs => x ++ sep ++ pyJoin sep (y :: xs)

/-- Substring occurrence test on character lists: `sep` occurs somewhere in
`l` (model of Python `sep in l`). -/
def hasInfix (sep l : List Char) : Bool :=
  l.tails.any (fun t => sep.isPrefixOf t)

/-- Model of Python `needle in haystack` on strings. -/
def strContains (haystack needle : String) : Bool :=
  hasInfix needle.toList haystack.toList

/-- Worker for `pySplit`, structurally recursive on a fuel bound (any fuel
at least the length of the list gives the same answer, see
`pySplitAux_mono`). -/
def pySplitAux (sep : List Char) : Nat → List Char → List (List Char)
  | _, [] => [[]]
  | 0, c :: t => [c :: t]
  | fuel + 1, c :: t =>
      if sep.isPrefixOf (c :: t) then
        [] :: pySplitAux sep fuel (t.drop (sep.length - 1))
      else
        match pySplitAux sep fuel t with
        | [] => [[c]]
        | p :: ps => (c :: p) :: ps

/-- Model of Python `str.split(sep)` for a non-empty separator: leftmost,
non-overlapping splitting; always returns at least one part. -/
def pySplit (sep l : List Char) : List (List Char) :=
  pySplitAux sep l.length l

/-- Worker for `pyTitle`; the flag records whether the previous character
was a letter. -/
def pyTitleL : Bool → List Char → List Char
  | _, [] => []
  | prevAlpha, c :: rest =>
      if c.isAlpha then
        (if prevAlpha then c.toLower else c.toUpper) :: pyTitleL true rest
      else
        c :: pyTitleL false rest

/-- Model of Python `str.title()` (ASCII): uppercase every letter that
starts a maximal run of letters, lowercase the other letters. -/
def pyTitle (s : String) : String :=
  String.mk (pyTitleL false s.toList)

/-- Model of Python `str.replace(pat, repl)` for a non-empty pattern:
replace every leftmost non-overlapping occurrence. -/
def pyReplace (s pat repl : String) : String :=
  pyJoin repl ((pySplit pat.toList s.toList).map String.mk)

/-- Value of an ASCII hex digit. -/
def hexVal (c : Char) : Option Nat :=
  if c.isDigit then some (c.toNat - '0'.toNat)
  else if 'a' ≤ c ∧ c ≤ 'f' then some (c.toNat - 'a'.toNat + 10)
  else if 'A' ≤ c ∧ c ≤ 'F' then some (c.toNat - 'A'.toNat + 10)
  else none

/-- Worker for `pyUnquote`: decode `%XY` hex escapes, leave everything else
(including a malformed `%`) untouched. -/
def pyUnquoteL : List Char → List Char
  | [] => []
  | '%' :: a :: b :: rest =>
      match hexVal a, hexVal b with
      | some x, some y => Char.ofNat (16 * x + y) :: pyUnquoteL rest
      | _, _ => '%' :: pyUnquoteL (a :: b :: rest)
  | c :: rest => c :: pyUnquoteL rest

/-- Model of `urllib.parse.unquote` on the ASCII range. -/
def pyUnquote (s : String) : String :=
  String.mk (pyUnquoteL s.toList)

/-! ## Data model (`src/models.py`) -/

/-- A single work-experience entry (`models.Experience`). -/
structure Experience where
  title : String
  company : String
  location : Option String := none
  duration : Option String := none
  description : Option String := none
deriving DecidableEq, Repr

/-- A single education entry (`models.Education`). -/
structure Education where
  school : String
  degree : Option String := none
  field_of_study : Option String := none
  years : Option String := none
deriving DecidableEq, Repr

/-- A candidate profile (`models.CandidateProfile`). -/
structure CandidateProfile where
  name : String
  headline : Option String := none
  location : Option String := none
  profile_url : String
  connection_degree : Option String := none
  current_company : Option String := none
  current_title : Option String := none
  summary : Option String := none
  skills : List String := []
  experience : List Experience := []
  education : List Education := []
deriving DecidableEq, Repr

/-- Search parameters (`models.SearchCriteria`). -/
structure SearchCriteria where
  keywords : List String
  titles : List String
  locations : List String := []
  companies : List String := []
  industries : List String := []
  current_only : Bool := false
deriving DecidableEq, Repr

/-! ## Query builder (`_build_search_keywords`) -/

/-- Embedding of `_build_search_keywords`: one query per title among the
first 3 titles (title, space, space-join of the first 4 keywords), plus,
when `locations` is non-empty, one query made of the space-join of the
first 3 keywords and the first location. -/
def build_search_keywords (criteria : SearchCriteria) : List String :=
  let queries := (criteria.titles.take 3).foldl
    (fun qs title => qs ++ [title ++ " " ++ pyJoin " " (criteria.keywords.take 4)]) []
  match criteria.locations with
  | [] => queries
  | loc :: _ => queries ++ [pyJoin " " (criteria.keywords.take 3) ++ " " ++ loc]

/-! ## Deduplication (tail of both `search_people` implementations) -/

/-- One step of the dedup loop: state is `(seen urls, unique profiles)`. -/
def dedupStep (st : List String × List CandidateProfile) (c : CandidateProfile) :
    List String × List CandidateProfile :=
  if c.profile_url ∈ st.1 then st else (st.1 ++ [c.profile_url], st.2 ++ [c])

/-- Embedding of the `seen`/`unique` dedup loop shared by both crawlers:
keep the first occurrence of each `profile_url`, preserving order. -/
def dedupByUrl (candidates : List CandidateProfile) : List CandidateProfile :=
  (candidates.foldl dedupStep ([], [])).2

/-- Structural-recursion companion of the dedup fold, used to reason about
`dedupByUrl`. -/
def dedupRec (seen : List String) : List CandidateProfile → List CandidateProfile
  | [] => []
  | c :: cs =>
      if c.profile_url ∈ seen then dedupRec seen cs
      else c :: dedupRec (seen ++ [c.profile_url]) cs

/-- `c` occurs in `cands` and no earlier entry shares its `profile_url`:
the positional meaning of "first occurrence kept". -/
def isFirstOccurrence (cands : List CandidateProfile) (c : CandidateProfile) : Prop :=
  ∃ l₁ l₂, cands = l₁ ++ c :: l₂ ∧ ∀ d ∈ l₁, d.profile_url ≠ c.profile_url

/-! ## Voyager JSON records -/

/-- One raw record of the Voyager `included` array, restricted to the keys
the crawler reads.  `dollarType` models the `"$type"` discriminator; every
field is optional because the source reads them with `dict.get`. -/
structure VoyagerItem where
  dollarType : Option String := none
  publicIdentifier : Option String := none
  public_id : Option String := none
  firstName : Option String := none
  lastName : Option String := none
  occupation : Option String := none
  headline : Option String := none
  locationName : Option String := none
  title : Option String := none
  companyName : Option String := none
  description : Option String := none
  schoolName : Option String := none
  degreeName : Option String := none
  fieldOfStudy : Option String := none
  name : Option String := none
  summary : Option String := none
deriving DecidableEq, Repr

/-- A decoded Voyager JSON response body: the `included` array (read with
`data.get("included", [])`). -/
structure VoyagerData where
  included : List VoyagerItem := []
deriving DecidableEq, Repr

/-- Observable effect of a `search_people` query loop (either strategy):
an issued request, a fixed cooldown sleep of `n` time units, or the
randomized polite delay inserted after each query. -/
inductive CrawlEvent where
  | request (query : String) : CrawlEvent
  | sleep (n : Nat) : CrawlEvent
  | politeDelay : CrawlEvent
deriving DecidableEq, Repr

namespace LinkedInAuthenticatedCrawler

/-- The body of the `for item in included` loop of `_parse_search_results`:
the profile produced for one record, or `none` when the record is skipped
(`continue`). -/
def itemProfile (item : VoyagerItem) : Option CandidateProfile :=
  let entity_type := item.dollarType.getD ""
  if strContains entity_type "MiniProfile" || strContains entity_type "Profile" then
    let public_id := pyOrD item.publicIdentifier (item.public_id.getD "")
    if public_id = "" then none
    else
      let name := pyStrip (pyJoin " "
        ([item.firstName.getD "", item.lastName.getD ""].filter (fun p => p ≠ "")))
      if name = "" then none
      else some { name := name
                  headline := pyOrOpt item.occupation item.headline
                  location := item.locationName
                  profile_url := "https://www.linkedin.com/in/" ++ public_id
                  current_title := item.occupation }
  else none

/-- Embedding of `_parse_search_results`: accumulate the per-record
profiles in order. -/
def parse_search_results (data : VoyagerData) : List CandidateProfile :=
  data.included.foldl
    (fun candidates item =>
      match itemProfile item with
      | some c => candidates ++ [c]
      | none => candidates) []

/-- Accumulator of the `for item in included` loop of
`_parse_full_profile`. -/
structure FullProfileState where
  profileData : VoyagerItem
  experiences : List Experience
  educations : List Education
  skills : List String
deriving DecidableEq, Repr

/-- The body of the `for item in included` loop of `_parse_full_profile`
(the `if`/`elif` chain on the `$type` discriminator). -/
def fullProfileStep (public_id : String) (st : FullProfileState)
    (item : VoyagerItem) : FullProfileState :=
  let t := item.dollarType.getD ""
  if strContains t "Profile" ∧ item.publicIdentifier = some public_id then
    { st with profileData := item }
  else if strContains t "Position" then
    { st with experiences := st.experiences ++
        [{ title := item.title.getD "Unknown"
           company := item.companyName.getD "Unknown"
           location := item.locationName
           description := item.description }] }
  else if strContains t "Education" then
    { st with educations := st.educations ++
        [{ school := item.schoolName.getD "Unknown"
           degree := item.degreeName
           field_of_study := item.fieldOfStudy }] }
  else if strContains t "Skill" then
    match item.name with
    | some n => if n = "" then st else { st with skills := st.skills ++ [n] }
    | none => st
  else st

/-- Embedding of `_parse_full_profile`: correlate the typed records of the
`included` array into one aggregated profile; the display name falls back
to `"Unknown"` when no first/last name is recoverable. -/
def parse_full_profile (data : VoyagerData) (public_id : String) : CandidateProfile :=
  let st := data.included.foldl (fullProfileStep public_id) ⟨{}, [], [], []⟩
  let joined := pyJoin " "
    (([st.profileData.firstName, st.profileData.lastName].filterMap id).filter
      (fun p => p ≠ ""))
  { name := if joined = "" then "Unknown" else joined
    headline := st.profileData.headline
    location := st.profileData.locationName
    profile_url := "https://www.linkedin.com/in/" ++ public_id
    summary := st.profileData.summary
    current_title := st.profileData.headline
    skills := st.skills
    experience := st.experiences
    education := st.educations }

/-- Outcome of the single HTTP GET performed by `enrich_profile`.
`transportFailure` models an `httpx.HTTPError` raised by `client.get`;
`response status body` models a completed response, where `body = none`
means `resp.json()` raises (undecodable body) and `body = some data` the
decoded `included` payload. -/
inductive ProfileFetch where
  | transportFailure : ProfileFetch
  | response (status : Nat) (body : Option VoyagerData) : ProfileFetch
deriving DecidableEq, Repr

/-- Embedding of `enrich_profile`.  The `try` block only catches
`httpx.HTTPError`, so a `resp.json()` decode failure on an HTTP 200
response escapes as an exception (`Except.error`); every other outcome
yields `Except.ok` with the optional profile returned to the caller. -/
def enrich_profile (public_id : String) (fetch : ProfileFetch) :
    Except String (Option CandidateProfile) :=
  match fetch with
  | ProfileFetch.transportFailure => Except.ok none
  | ProfileFetch.response status body =>
      if status = 200 then
        match body with
        | some data => Except.ok (some (parse_full_profile data public_id))
        | none => Except.error "json decode failure"
      else Except.ok none

/-- Response of one Voyager search GET inside `search_people`.
`okUndecodable` is an HTTP 200 whose `resp.json()` raises. -/
inductive AuthResponse where
  | ok (data : VoyagerData) : AuthResponse
  | okUndecodable : AuthResponse
  | rateLimited : AuthResponse
  | otherStatus (code : Nat) : AuthResponse
  | transportFailure : AuthResponse
deriving DecidableEq, Repr

/-- Embedding of the `for query in queries` loop of
`LinkedInAuthenticatedCrawler.search_people`.  `env i` is the response to
the `i`-th request actually issued.  Returns the event trace together with
either the accumulated (not yet deduplicated) profiles or a propagated
exception.  The `count` request parameter (`min(25, max_results -
len(candidates))`) only shapes the provider's answer, which `env`
abstracts. -/
def search_people_loop (env : Nat → AuthResponse) (max_results : Nat) :
    List String → Nat → List CandidateProfile → List CrawlEvent →
    List CrawlEvent × Except Unit (List CandidateProfile)
  | [], _, candidates, trace => (trace, Except.ok candidates)
  | query :: queries, i, candidates, trace =>
      if max_results ≤ candidates.length then (trace, Except.ok candidates)
      else
        match env i with
        | AuthResponse.ok data =>
            search_people_loop env max_results queries (i + 1)
              (candidates ++ parse_search_results data)
              (trace ++ [CrawlEvent.request query, CrawlEvent.politeDelay])
        | AuthResponse.okUndecodable =>
            (trace ++ [CrawlEvent.request query], Except.error ())
        | AuthResponse.rateLimited =>
            search_people_loop env max_results queries (i + 1) candidates
              (trace ++ [CrawlEvent.request query, CrawlEvent.sleep 60,
                CrawlEvent.politeDelay])
        | AuthResponse.otherStatus _ =>
            search_people_loop env max_results queries (i + 1) candidates
              (trace ++ [CrawlEvent.request query, CrawlEvent.politeDelay])
        | AuthResponse.transportFailure =>
            search_people_loop env max_results queries (i + 1) candidates
              (trace ++ [CrawlEvent.request query, CrawlEvent.politeDelay])

/-- Embedding of `LinkedInAuthenticatedCrawler.search_people`: run the
query loop, then deduplicate by `profile_url` and truncate to
`max_results`. -/
def search_people (env : Nat → AuthResponse) (criteria : SearchCriteria)
    (max_results : Nat) : List CrawlEvent × Except Unit (List CandidateProfile) :=
  let r := search_people_loop env max_results (build_search_keywords criteria) 0 [] []
  (r.1, r.2.map (fun candidates => (dedupByUrl candidates).take max_results))

end LinkedInAuthenticatedCrawler

/-! ## Google X-Ray fallback (`GoogleXRayCrawler`) -/

/-- One `<a href=…>` element of the scraped result markup, as selected by
`soup.select("a[href]")`: its `href` and the text of its enclosing `div`
(`none` when `a_tag.find_parent("div")` finds nothing). -/
structure Anchor where
  href : String
  parentDivText : Option String := none
deriving DecidableEq, Repr

namespace GoogleXRayCrawler

/-- Model of `re.search(r"/url\?q=(https?://[^&]+)", href)`: scan for the
leftmost position where `/url?q=` is followed by `http://` or `https://`
and at least one non-`&` character; return the captured group. -/
def findRedirectTarget : List Char → Option (List Char)
  | [] => none
  | c :: rest =>
      if ("/url?q=".toList).isPrefixOf (c :: rest) then
        let after := (c :: rest).drop "/url?q=".toList.length
        let schemeLen :=
          if ("https://".toList).isPrefixOf after then some "https://".length
          else if ("http://".toList).isPrefixOf after then some "http://".length
          else none
        match schemeLen with
        | some n =>
            let body := (after.drop n).takeWhile (fun ch => ch != '&')
            if body.length = 0 then findRedirectTarget rest
            else some (after.take n ++ body)
        | none => findRedirectTarget rest
      else findRedirectTarget rest

/-- Embedding of the redirect unwrapping at the top of the link loop:
Google wraps result links in `/url?q=…`; unwrap and percent-decode the
destination when present. -/
def unwrapHref (href : String) : String :=
  if strContains href "/url?q=" then
    match findRedirectTarget href.toList with
    | some url => pyUnquote (String.mk url)
    | none => href
  else href

/-- Characters that may appear in a URL scheme (`urllib`'s
`scheme_chars`). -/
def schemeChar (c : Char) : Bool :=
  c.isAlpha || c.isDigit || c == '+' || c == '-' || c == '.'

/-- Scheme removal step of `urllib.parse.urlparse`: drop `scheme:` when the
text before the first `:` is a valid scheme. -/
def stripScheme (l : List Char) : List Char :=
  match l.findIdx? (fun c => c == ':') with
  | some i =>
      if 0 < i ∧ (l.take i).all schemeChar ∧ (l.headD ' ').isAlpha then
        l.drop (i + 1)
      else l
  | none => l

/-- Netloc removal step of `urllib.parse.urlparse`: after the scheme, a
leading `//` introduces the network location, which extends to the first
`/`, `?` or `#`. -/
def dropNetloc (l : List Char) : List Char :=
  match l with
  | '/' :: '/' :: rest =>
      rest.dropWhile (fun c => c != '/' && c != '?' && c != '#')
  | _ => l

/-- Model of `urllib.parse.urlparse(href).path`: strip scheme and netloc,
then cut the fragment (first `#`) and the query (first `?`). -/
def urlPath (href : String) : String :=
  String.mk (((dropNetloc (stripScheme href.toList)).takeWhile
    (fun c => c != '#')).takeWhile (fun c => c != '?'))

/-- Model of `path.rstrip("/")`: drop every trailing slash. -/
def rstripSlash (s : String) : String :=
  String.mk ((s.toList.reverse.dropWhile (fun c => c == '/')).reverse)

/-- The canonical path computed in the link loop:
`urlparse(href).path.rstrip("/")`. -/
def canonPath (href : String) : String :=
  rstripSlash (urlPath href)

/-- Embedding of
`path.split("/in/")[-1].split("/")[0] if "/in/" in path else ""`. -/
def publicIdOfPath (path : String) : String :=
  if strContains path "/in/" then
    String.mk (((pySplit "/in/".toList path.toList).getLastD []).takeWhile
      (fun c => c != '/'))
  else ""

/-- The humanized fallback display name: hyphens to spaces, title-cased
(`public_id.replace("-", " ").title()`). -/
def humanizeId (public_id : String) : String :=
  pyTitle (pyReplace public_id "-" " ")

/-- Embedding of the snippet heuristic of `_parse_google_results`: when the
enclosing text contains `" - "`, the stripped first part (unless blank)
becomes the name and the stripped second part the headline; otherwise the
humanized `public_id` is the name and there is no headline. -/
def snippetNameHeadline (text_block public_id : String) : String × Option String :=
  let fallback := humanizeId public_id
  if strContains text_block " - " then
    let parts := pySplit " - ".toList text_block.toList
    if 2 ≤ parts.length then
      let first := pyStrip (String.mk (parts.headD []))
      ((if first = "" then fallback else first),
        some (pyStrip (String.mk (parts.getD 1 []))))
    else (fallback, none)
  else (fallback, none)

/-- The body of the `for a_tag in soup.select("a[href]")` loop of
`_parse_google_results`: the profile produced for one anchor, or `none`
when the anchor is skipped. -/
def processAnchor (a : Anchor) : Option CandidateProfile :=
  if strContains (unwrapHref a.href) "linkedin.com/in/" then
    if publicIdOfPath (canonPath (unwrapHref a.href)) = "" then none
    else
      some { name := (snippetNameHeadline (a.parentDivText.getD "")
               (publicIdOfPath (canonPath (unwrapHref a.href)))).1
             headline := (snippetNameHeadline (a.parentDivText.getD "")
               (publicIdOfPath (canonPath (unwrapHref a.href)))).2
             profile_url := "https://www.linkedin.com" ++ canonPath (unwrapHref a.href)
             current_title := (snippetNameHeadline (a.parentDivText.getD "")
               (publicIdOfPath (canonPath (unwrapHref a.href)))).2 }
  else none

/-- Embedding of `_parse_google_results`: accumulate the per-anchor
profiles in markup order. -/
def parse_google_results (anchors : List Anchor) : List CandidateProfile :=
  anchors.foldl
    (fun candidates a =>
      match processAnchor a with
      | some c => candidates ++ [c]
      | none => candidates) []

/-- Response of one Google search GET inside the fallback
`search_people`.  A 200 response carries the markup already decomposed
into its profile-link anchors. -/
inductive GoogleResponse where
  | ok (markup : List Anchor) : GoogleResponse
  | rateLimited : GoogleResponse
  | otherStatus (code : Nat) : GoogleResponse
  | transportFailure : GoogleResponse
deriving DecidableEq, Repr

/-- Embedding of the `for query in queries` loop of
`GoogleXRayCrawler.search_people`; the 429 cooldown is 30 time units and
no branch can raise. -/
def search_people_loop (env : Nat → GoogleResponse) (max_results : Nat) :
    List String → Nat → List CandidateProfile → List CrawlEvent →
    List CrawlEvent × List CandidateProfile
  | [], _, candidates, trace => (trace, candidates)
  | query :: queries, i, candidates, trace =>
      if max_results ≤ candidates.length then (trace, candidates)
      else
        let gq := "site:linkedin.com/in \"" ++ query ++ "\""
        match env i with
        | GoogleResponse.ok markup =>
            search_people_loop env max_results queries (i + 1)
              (candidates ++ parse_google_results markup)
              (trace ++ [CrawlEvent.request gq, CrawlEvent.politeDelay])
        | GoogleResponse.rateLimited =>
            search_people_loop env max_results queries (i + 1) candidates
              (trace ++ [CrawlEvent.request gq, CrawlEvent.sleep 30,
                CrawlEvent.politeDelay])
        | GoogleResponse.otherStatus _ =>
            search_people_loop env max_results queries (i + 1) candidates
              (trace ++ [CrawlEvent.request gq, CrawlEvent.politeDelay])
        | GoogleResponse.transportFailure =>
            search_people_loop env max_results queries (i + 1) candidates
              (trace ++ [CrawlEvent.request gq, CrawlEvent.politeDelay])

/-- Embedding of `GoogleXRayCrawler.search_people`: run the query loop,
deduplicate by `profile_url`, truncate to `max_results`. -/
def search_people (env : Nat → GoogleResponse) (criteria : SearchCriteria)
    (max_results : Nat) : List CrawlEvent × List CandidateProfile :=
  let r := search_people_loop env max_results (build_search_keywords criteria) 0 [] []
  (r.1, (dedupByUrl r.2).take max_results)

end GoogleXRayCrawler

/-! ## Unified crawler (`LinkedInCrawler.search`) -/

/-- Outcome of consulting the authenticated strategy: absent client
(no `li_at` cookie), a raised exception from `search_people`, or a
returned profile list. -/
inductive AuthAttempt where
  | notConfigured : AuthAttempt
  | raised : AuthAttempt
  | returned (profiles : List CandidateProfile) : AuthAttempt
deriving DecidableEq, Repr

/-- Abstraction of the two sub-strategies as seen by the unified crawler:
what each client does for given criteria and maximum. -/
structure UnifiedEnv where
  auth : SearchCriteria → Nat → AuthAttempt
  google : SearchCriteria → Nat → List CandidateProfile

/-- Result of `LinkedInCrawler.search` together with which strategy was
consulted: `usedFallback` records whether the Google client was invoked. -/
structure UnifiedResult where
  profiles : List CandidateProfile
  queries_used : List String
  usedFallback : Bool
deriving DecidableEq, Repr

namespace LinkedInCrawler

/-- Embedding of `LinkedInCrawler.search`: compute `queries_used` once; use
the authenticated result when it is configured, does not raise, and is
non-empty; otherwise invoke the fallback and return its result. -/
def search (env : UnifiedEnv) (criteria : SearchCriteria) (max_results : Nat) :
    UnifiedResult :=
  let queries_used := build_search_keywords criteria
  match env.auth criteria max_results with
  | AuthAttempt.notConfigured =>
      ⟨env.google criteria max_results, queries_used, true⟩
  | AuthAttempt.raised =>
      ⟨env.google criteria max_results, queries_used, true⟩
  | AuthAttempt.returned profiles =>
      if profiles.isEmpty then ⟨env.google criteria max_results, queries_used, true⟩
      else ⟨profiles, queries_used, false⟩

end LinkedInCrawler

/-! ## Helper lemmas on the string primitives -/

theorem isPrefixOf_iff_append : ∀ (l₁ l₂ : List Char),
    l₁.isPrefixOf l₂ = true ↔ ∃ t, l₂ = l₁ ++ t
  | [], l₂ => by simp [List.isPrefixOf]
  | a :: as, [] => by simp [List.isPrefixOf]
  | a :: as, b :: bs => by
      simp only [List.isPrefixOf, Bool.and_eq_true, beq_iff_eq,
        isPrefixOf_iff_append as bs, List.cons_append, List.cons.injEq]
      exact ⟨fun ⟨h, t, ht⟩ => ⟨t, h.symm, ht⟩, fun ⟨t, h, ht⟩ => ⟨h.symm, t, ht⟩⟩

theorem hasInfix_cons (sep : List Char) (c : Char) (t : List Char) :
    hasInfix sep (c :: t) = (sep.isPrefixOf (c :: t) || hasInfix sep t) := by
  simp [hasInfix, List.tails_cons]

theorem hasInfix_iff_exists (sep l : List Char) :
    hasInfix sep l = true ↔ ∃ pre post, l = pre ++ (sep ++ post) := by
  simp only [hasInfix, List.any_eq_true, List.mem_tails]
  constructor
  · rintro ⟨t, hsuf, hp⟩
    obtain ⟨pre, hpre⟩ := hsuf
    obtain ⟨post, hpost⟩ := (isPrefixOf_iff_append sep t).mp hp
    exact ⟨pre, post, by rw [← hpre, hpost]⟩
  · rintro ⟨pre, post, h⟩
    exact ⟨sep ++ post, ⟨pre, h.symm⟩, (isPrefixOf_iff_append _ _).mpr ⟨post, rfl⟩⟩

theorem pySplitAux_mono (sep : List Char) :
    ∀ (fuel extra : Nat) (l : List Char), l.length ≤ fuel →
      pySplitAux sep (fuel + extra) l = pySplitAux sep fuel l := by
  intro fuel
  induction fuel with
  | zero =>
      intro extra l hl
      have hnil : l = [] := List.length_eq_zero.mp (Nat.le_zero.mp hl)
      subst hnil
      simp only [pySplitAux]
  | succ f ih =>
      intro extra l hl
      cases l with
      | nil => simp only [pySplitAux]
      | cons c t =>
          have ht : t.length ≤ f := by simpa using hl
          rw [show f + 1 + extra = (f + extra) + 1 from by omega]
          simp only [pySplitAux]
          rw [ih extra (t.drop (sep.length - 1))
            (le_trans (by rw [List.length_drop]; exact Nat.sub_le _ _) ht)]
          rw [ih extra t ht]

theorem pySplit_nil (sep : List Char) : pySplit sep [] = [[]] := rfl

theorem pySplit_cons (sep : List Char) (c : Char) (t : List Char) :
    pySplit sep (c :: t) =
      if sep.isPrefixOf (c :: t) then
        [] :: pySplit sep (t.drop (sep.length - 1))
      else
        match pySplit sep t with
        | [] => [[c]]
        | p :: ps => (c :: p) :: ps := by
  have h1 : pySplitAux sep t.length (t.drop (sep.length - 1)) =
      pySplit sep (t.drop (sep.length - 1)) := by
    have hle : (t.drop (sep.length - 1)).length ≤ t.length := by
      rw [List.length_drop]; exact Nat.sub_le _ _
    rw [pySplit, show t.length = (t.drop (sep.length - 1)).length +
      (t.length - (t.drop (sep.length - 1)).length) from by omega]
    exact pySplitAux_mono sep _ _ _ (le_refl _)
  show pySplitAux sep (t.length + 1) (c :: t) = _
  simp only [pySplitAux]
  rw [h1]
  rfl

theorem pySplit_ne_nil (sep l : List Char) : pySplit sep l ≠ [] := by
  cases l with
  | nil => simp [pySplit_nil]
  | cons c t =>
      rw [pySplit_cons]
      split
      · simp
      · split <;> simp

theorem pySplit_of_not_infix (sep : List Char) :
    ∀ l : List Char, hasInfix sep l = false → pySplit sep l = [l] := by
  intro l
  induction l with
  | nil => intro _; simp [pySplit_nil]
  | cons c t ih =>
      intro h
      rw [hasInfix_cons, Bool.or_eq_false_iff] at h
      rw [pySplit_cons, if_neg (by simp [h.1]), ih h.2]

theorem pySplit_minimal (sep : List Char) (hsep : sep ≠ []) :
    ∀ (pre rest l : List Char), l = pre ++ (sep ++ rest) →
      (∀ p2 r2, l = p2 ++ (sep ++ r2) → pre.length ≤ p2.length) →
      pySplit sep l = pre :: pySplit sep rest := by
  intro pre
  induction pre with
  | nil =>
      intro rest l hl _
      subst hl
      simp only [List.nil_append]
      cases sep with
      | nil => exact absurd rfl hsep
      | cons s ss =>
          rw [List.cons_append, pySplit_cons,
            if_pos ((isPrefixOf_iff_append _ _).mpr ⟨rest, by simp⟩)]
          simp [List.drop_left ss rest]
  | cons a pre ih =>
      intro rest l hl hmin
      subst hl
      have hnp : ¬ (sep.isPrefixOf (a :: pre ++ (sep ++ rest)) = true) := by
        intro hp
        obtain ⟨t, ht⟩ := (isPrefixOf_iff_append _ _).mp hp
        have := hmin [] t (by simpa using ht)
        simp at this
      have htail : pySplit sep (pre ++ (sep ++ rest)) = pre :: pySplit sep rest := by
        refine ih rest _ rfl ?_
        intro p2 r2 h2
        have := hmin (a :: p2) r2 (by simp [h2])
        simpa using this
      rw [List.cons_append, pySplit_cons, if_neg (by simpa using hnp), htail]

theorem minimal_of_no_early_match (sep l : List Char) (n : Nat)
    (h : ∀ i, i < n → sep.isPrefixOf (l.drop i) = false) :
    ∀ p2 r2, l = p2 ++ (sep ++ r2) → n ≤ p2.length := by
  intro p2 r2 hl
  by_contra hlt
  push_neg at hlt
  have hp : sep.isPrefixOf (l.drop p2.length) = true := by
    rw [hl, List.drop_left]
    exact (isPrefixOf_iff_append _ _).mpr ⟨r2, rfl⟩
  rw [h _ hlt] at hp
  exact absurd hp (by simp)

/-! ## Helper lemmas on deduplication -/

theorem dedup_foldl_eq : ∀ (cs : List CandidateProfile) (seen : List String)
    (acc : List CandidateProfile),
    (cs.foldl dedupStep (seen, acc)).2 = acc ++ dedupRec seen cs := by
  intro cs
  induction cs with
  | nil => intro seen acc; simp [dedupRec]
  | cons c cs ih =>
      intro seen acc
      rw [List.foldl_cons]
      by_cases h : c.profile_url ∈ seen
      · rw [show dedupStep (seen, acc) c = (seen, acc) from by simp [dedupStep, h]]
        simp [ih, dedupRec, h]
      · rw [show dedupStep (seen, acc) c =
            (seen ++ [c.profile_url], acc ++ [c]) from by simp [dedupStep, h]]
        simp [ih, dedupRec, h]

theorem dedupByUrl_eq_dedupRec (cs : List CandidateProfile) :
    dedupByUrl cs = dedupRec [] cs := by
  simp [dedupByUrl, dedup_foldl_eq]

theorem dedupRec_sublist : ∀ (cs : List CandidateProfile) (seen : List String),
    (dedupRec seen cs).Sublist cs := by
  intro cs
  induction cs with
  | nil => intro seen; simp [dedupRec]
  | cons c cs ih =>
      intro seen
      rw [dedupRec]
      split
      · exact (ih seen).cons c
      · exact (ih (seen ++ [c.profile_url])).cons₂ c

theorem mem_dedupRec_not_seen : ∀ (cs : List CandidateProfile) (seen : List String)
    (c : CandidateProfile), c ∈ dedupRec seen cs → c.profile_url ∉ seen := by
  intro cs
  induction cs with
  | nil => intro seen c h; simp [dedupRec] at h
  | cons d cs ih =>
      intro seen c h
      rw [dedupRec] at h
      split at h
      · exact ih seen c h
      · rcases List.mem_cons.mp h with h | h
        · subst h; assumption
        · intro hc
          exact ih _ c h (List.mem_append_left _ hc)

theorem dedupRec_nodup : ∀ (cs : List CandidateProfile) (seen : List String),
    ((dedupRec seen cs).map (fun c => c.profile_url)).Nodup := by
  intro cs
  induction cs with
  | nil => intro seen; simp [dedupRec]
  | cons c cs ih =>
      intro seen
      rw [dedupRec]
      split
      · exact ih seen
      · refine List.nodup_cons.mpr ⟨?_, ih _⟩
        intro hmem
        obtain ⟨d, hd, hurl⟩ := List.mem_map.mp hmem
        exact mem_dedupRec_not_seen _ _ d hd
          (List.mem_append_right _ (by simp [hurl]))

theorem mem_dedupRec_iff : ∀ (cs : List CandidateProfile) (seen : List String)
    (c : CandidateProfile),
    c ∈ dedupRec seen cs ↔ c.profile_url ∉ seen ∧
      ∃ l₁ l₂, cs = l₁ ++ c :: l₂ ∧ ∀ d ∈ l₁, d.profile_url ≠ c.profile_url := by
  intro cs
  induction cs with
  | nil =>
      intro seen c
      simp only [dedupRec, List.not_mem_nil, false_iff]
      rintro ⟨-, l₁, l₂, h, -⟩
      cases l₁ <;> simp at h
  | cons d cs ih =>
      intro seen c
      rw [dedupRec]
      split
      · rename_i hd
        rw [ih]
        constructor
        · rintro ⟨hns, l₁, l₂, hcs, hl₁⟩
          refine ⟨hns, d :: l₁, l₂, by simp [hcs], ?_⟩
          intro e he
          rcases List.mem_cons.mp he with he | he
          · subst he
            intro hurl
            exact hns (hurl ▸ hd)
          · exact hl₁ e he
        · rintro ⟨hns, l₁, l₂, hcs, hl₁⟩
          cases l₁ with
          | nil =>
              simp only [List.nil_append, List.cons.injEq] at hcs
              exact absurd (hcs.1 ▸ hd) hns
          | cons e l₁ =>
              simp only [List.cons_append, List.cons.injEq] at hcs
              exact ⟨hns, l₁, l₂, hcs.2, fun f hf => hl₁ f (List.mem_cons_of_mem _ hf)⟩
      · rename_i hd
        constructor
        · intro h
          rcases List.mem_cons.mp h with h | h
          · subst h
            exact ⟨hd, [], cs, rfl, by simp⟩
          · obtain ⟨hns, l₁, l₂, hcs, hl₁⟩ := (ih _ c).mp h
            have hne : d.profile_url ≠ c.profile_url := by
              intro he
              exact hns (List.mem_append_right _ (by simp [he]))
            refine ⟨fun hc => hns (List.mem_append_left _ hc), d :: l₁, l₂,
              by simp [hcs], ?_⟩
            intro e he
            rcases List.mem_cons.mp he with he | he
            · subst he; exact hne
            · exact hl₁ e he
        · rintro ⟨hns, l₁, l₂, hcs, hl₁⟩
          cases l₁ with
          | nil =>
              simp only [List.nil_append, List.cons.injEq] at hcs
              exact List.mem_cons.mpr (Or.inl hcs.1.symm)
          | cons e l₁ =>
              simp only [List.cons_append, List.cons.injEq] at hcs
              refine List.mem_cons.mpr (Or.inr ?_)
              refine (ih _ c).mpr ⟨?_, l₁, l₂, hcs.2,
                fun f hf => hl₁ f (List.mem_cons_of_mem _ hf)⟩
              intro hc
              rcases List.mem_append.mp hc with hc | hc
              · exact hns hc
              · have hcd : c.profile_url = d.profile_url := by simpa using hc
                exact hl₁ e (List.mem_cons_self _ _) (by rw [← hcs.1, ← hcd])

theorem mem_dedupByUrl_iff (cs : List CandidateProfile) (c : CandidateProfile) :
    c ∈ dedupByUrl cs ↔ isFirstOccurrence cs c := by
  rw [dedupByUrl_eq_dedupRec, mem_dedupRec_iff]
  simp [isFirstOccurrence]

/-! ## Helper lemmas on whitespace and names -/

theorem pyStrip_eq_empty_iff (s : String) :
    pyStrip s = "" ↔ ∀ c ∈ s.toList, c.isWhitespace := by
  rw [pyStrip, String.ext_iff]
  show _ = ([] : List Char) ↔ _
  rw [List.reverse_eq_nil_iff, List.dropWhile_eq_nil_iff]
  constructor
  · intro h c hc
    rcases List.mem_append.mp
        ((List.takeWhile_append_dropWhile Char.isWhitespace s.toList) ▸ hc) with h' | h'
    · exact List.mem_takeWhile_imp h'
    · exact h c (List.mem_reverse.mpr h')
  · intro h c hc
    exact h c ((List.dropWhile_sublist _).subset (List.mem_reverse.mp hc))

theorem mem_of_mem_pyJoin_space (xs : List String)
    (h : ∀ x ∈ xs, ∀ c ∈ x.toList, c.isWhitespace) :
    ∀ c ∈ (pyJoin " " xs).toList, c.isWhitespace := by
  induction xs with
  | nil => simp [pyJoin]
  | cons x xs ih =>
      cases xs with
      | nil =>
          simpa [pyJoin] using h x (by simp)
      | cons y ys =>
          rw [pyJoin]
          intro c hc
          rw [show ∀ s t : String, (s ++ t).toList = s.toList ++ t.toList from
            fun s t => String.data_append s t] at hc
          rw [show ∀ s t : String, (s ++ t).toList = s.toList ++ t.toList from
            fun s t => String.data_append s t] at hc
          rcases List.mem_append.mp hc with hc | hc
          · rcases List.mem_append.mp hc with hc | hc
            · exact h x (by simp) c hc
            · simp at hc
              simp [hc]
          · exact ih (fun z hz => h z (List.mem_cons_of_mem _ hz)) c hc

theorem foldl_push_eq_map {α β : Type} (f : α → β) :
    ∀ (l : List α) (acc : List β),
      l.foldl (fun qs x => qs ++ [f x]) acc = acc ++ l.map f := by
  intro l
  induction l with
  | nil => intro acc; simp
  | cons x xs ih => intro acc; simp [ih]

/-! ## Claims -/

open LinkedInAuthenticatedCrawler (AuthResponse ProfileFetch)

open GoogleXRayCrawler (GoogleResponse)

/-- C2: `_build_search_keywords` returns exactly one query per title among
the first 3 titles — each the title, a space, and the space-join of the
first 4 keywords — plus, when `locations` is non-empty, one additional
query made of the space-join of the first 3 keywords, a space, and the
first location; with empty titles and locations the result is the empty
sequence, not an error. -/
theorem claim_C2 : ∀ criteria : SearchCriteria,
    build_search_keywords criteria =
      (criteria.titles.take 3).map
        (fun title => title ++ " " ++ pyJoin " " (criteria.keywords.take 4)) ++
      (match criteria.locations with
       | [] => []
       | loc :: _ => [pyJoin " " (criteria.keywords.take 3) ++ " " ++ loc]) ∧
    (criteria.titles = [] → criteria.locations = [] →
      build_search_keywords criteria = []) := by
  intro c
  constructor
  · cases hl : c.locations with
    | nil => simp [build_search_keywords, hl, foldl_push_eq_map]
    | cons loc rest => simp [build_search_keywords, hl, foldl_push_eq_map]
  · intro ht hl
    simp [build_search_keywords, ht, hl]

theorem claim_C2_witness :
    build_search_keywords ⟨["python"], [], [], [], [], false⟩ = [] :=
  (claim_C2 ⟨["python"], [], [], [], [], false⟩).2 rfl rfl

/-- C1: `LinkedInCrawler.search` always returns `queries_used` equal to the
one sequence computed by `_build_search_keywords(criteria)`; a configured
authenticated client returning a non-empty list is returned as-is and the
Google fallback is never invoked; when the client is absent, raises, or
returns zero profiles, the fallback is invoked and its result returned. -/
theorem claim_C1 : ∀ (env : UnifiedEnv) (criteria : SearchCriteria) (max_results : Nat),
    (LinkedInCrawler.search env criteria max_results).queries_used =
      build_search_keywords criteria ∧
    (∀ ps, env.auth criteria max_results = AuthAttempt.returned ps → ps ≠ [] →
      (LinkedInCrawler.search env criteria max_results).profiles = ps ∧
      (LinkedInCrawler.search env criteria max_results).usedFallback = false) ∧
    ((env.auth criteria max_results = AuthAttempt.notConfigured ∨
      env.auth criteria max_results = AuthAttempt.raised ∨
      env.auth criteria max_results = AuthAttempt.returned []) →
      (LinkedInCrawler.search env criteria max_results).profiles =
        env.google criteria max_results ∧
      (LinkedInCrawler.search env criteria max_results).usedFallback = true) := by
  intro env c m
  refine ⟨?_, ?_, ?_⟩
  · cases h : env.auth c m with
    | notConfigured => simp [LinkedInCrawler.search, h]
    | raised => simp [LinkedInCrawler.search, h]
    | returned ps =>
        simp only [LinkedInCrawler.search, h]
        split <;> rfl
  · intro ps hps hne
    have hni : ps.isEmpty = false := by
      cases ps with
      | nil => exact absurd rfl hne
      | cons a as => rfl
    simp [LinkedInCrawler.search, hps, hni]
  · intro h
    rcases h with h | h | h <;> simp [LinkedInCrawler.search, h]

theorem claim_C1_witness :
    (LinkedInCrawler.search
      ⟨fun _ _ => AuthAttempt.returned [{ name := "Ada", profile_url := "u" }],
       fun _ _ => []⟩ ⟨[], [], [], [], [], false⟩ 5).profiles =
        [{ name := "Ada", profile_url := "u" }] ∧
    (LinkedInCrawler.search
      ⟨fun _ _ => AuthAttempt.returned [{ name := "Ada", profile_url := "u" }],
       fun _ _ => []⟩ ⟨[], [], [], [], [], false⟩ 5).usedFallback = false :=
  (claim_C1 ⟨fun _ _ => AuthAttempt.returned [{ name := "Ada", profile_url := "u" }],
    fun _ _ => []⟩ ⟨[], [], [], [], [], false⟩ 5).2.1
    [{ name := "Ada", profile_url := "u" }] rfl (by simp)

/-- C9: the fallback HTML parser is a pure, deterministic function of its
markup: two runs on identical markup produce identical profile sequences in
the same order.  (`_parse_google_results` reads no mutable state and uses
no randomness, so it embeds as a pure function.) -/
theorem claim_C9 : ∀ markup : List Anchor,
    GoogleXRayCrawler.parse_google_results markup =
      GoogleXRayCrawler.parse_google_results markup :=
  fun _ => rfl

theorem dedup_take_props (raw : List CandidateProfile) (m : Nat) :
    (((dedupByUrl raw).take m).map (fun c => c.profile_url)).Nodup ∧
    ((dedupByUrl raw).take m).length ≤ m ∧
    ((dedupByUrl raw).take m).Sublist raw ∧
    (∀ c, c ∈ dedupByUrl raw ↔ isFirstOccurrence raw c) := by
  refine ⟨?_, ?_, ?_, fun c => mem_dedupByUrl_iff raw c⟩
  · have h2 : (((dedupByUrl raw).take m).map (fun c => c.profile_url)).Sublist
        ((dedupByUrl raw).map (fun c => c.profile_url)) :=
      (List.take_sublist m _).map _
    have h3 : ((dedupByUrl raw).map (fun c => c.profile_url)).Nodup := by
      rw [dedupByUrl_eq_dedupRec]
      exact dedupRec_nodup raw []
    exact List.Nodup.sublist h2 h3
  · rw [List.length_take]
    exact min_le_left _ _
  · refine (List.take_sublist m _).trans ?_
    rw [dedupByUrl_eq_dedupRec]
    exact dedupRec_sublist raw []

/-- C3: the final profile list returned by `search_people` (authenticated
and fallback alike) is the accumulated production deduplicated by
`profile_url` — no two entries share a `profile_url`, exactly the first
occurrence of each URL is kept in production order (a sublist, never
re-sorted) — truncated to at most `max_results` entries. -/
theorem claim_C3 : ∀ (env : Nat → AuthResponse) (genv : Nat → GoogleResponse)
    (criteria : SearchCriteria) (m : Nat),
    (∀ out, (LinkedInAuthenticatedCrawler.search_people env criteria m).2 =
        Except.ok out →
      ∃ raw, (LinkedInAuthenticatedCrawler.search_people_loop env m
          (build_search_keywords criteria) 0 [] []).2 = Except.ok raw ∧
        out = (dedupByUrl raw).take m ∧
        (out.map (fun c => c.profile_url)).Nodup ∧
        out.length ≤ m ∧ out.Sublist raw ∧
        (∀ c, c ∈ dedupByUrl raw ↔ isFirstOccurrence raw c)) ∧
    (∃ raw, (GoogleXRayCrawler.search_people_loop genv m
        (build_search_keywords criteria) 0 [] []).2 = raw ∧
      (GoogleXRayCrawler.search_people genv criteria m).2 = (dedupByUrl raw).take m ∧
      ((GoogleXRayCrawler.search_people genv criteria m).2.map
        (fun c => c.profile_url)).Nodup ∧
      (GoogleXRayCrawler.search_people genv criteria m).2.length ≤ m ∧
      (GoogleXRayCrawler.search_people genv criteria m).2.Sublist raw ∧
      (∀ c, c ∈ dedupByUrl raw ↔ isFirstOccurrence raw c)) := by
  intro env genv c m
  constructor
  · intro out hout
    have h2 : (LinkedInAuthenticatedCrawler.search_people env c m).2 =
        ((LinkedInAuthenticatedCrawler.search_people_loop env m
          (build_search_keywords c) 0 [] []).2).map
          (fun cands => (dedupByUrl cands).take m) := rfl
    rw [h2] at hout
    cases hr : (LinkedInAuthenticatedCrawler.search_people_loop env m
        (build_search_keywords c) 0 [] []).2 with
    | error e => rw [hr] at hout; simp [Except.map] at hout
    | ok raw =>
        rw [hr] at hout
        simp only [Except.map, Except.ok.injEq] at hout
        obtain ⟨ha, hb, hc, hd⟩ := dedup_take_props raw m
        exact ⟨raw, rfl, hout.symm, hout ▸ ha, hout ▸ hb, hout ▸ hc, hd⟩
  · obtain ⟨ha, hb, hc, hd⟩ := dedup_take_props
      ((GoogleXRayCrawler.search_people_loop genv m
        (build_search_keywords c) 0 [] []).2) m
    exact ⟨_, rfl, rfl, ha, hb, hc, hd⟩

theorem claim_C3_witness :
    ∃ raw, (LinkedInAuthenticatedCrawler.search_people_loop
        (fun _ => AuthResponse.ok ⟨[]⟩) 5
        (build_search_keywords ⟨[], [], [], [], [], false⟩) 0 [] []).2 =
          Except.ok raw ∧
      ([] : List CandidateProfile) = (dedupByUrl raw).take 5 ∧
      (([] : List CandidateProfile).map (fun c => c.profile_url)).Nodup ∧
      ([] : List CandidateProfile).length ≤ 5 ∧
      ([] : List CandidateProfile).Sublist raw ∧
      (∀ c, c ∈ dedupByUrl raw ↔ isFirstOccurrence raw c) :=
  (claim_C3 (fun _ => AuthResponse.ok ⟨[]⟩) (fun _ => GoogleResponse.transportFailure)
    ⟨[], [], [], [], [], false⟩ 5).1 [] rfl

/-- C4: an HTTP 429 on one query triggers only the fixed cooldown sleep (60
time units on the authenticated path, 30 on the fallback path) followed by
the usual polite delay, and the loop moves on to the next query without
retrying the stalled one; in the concrete scenario — 429 on the first
query, 200 with 3 valid records on the second — the final result is
exactly those 3 records and no exception propagates. -/
theorem claim_C4 :
    (∀ (env : Nat → AuthResponse) (m : Nat) (q : String) (qs : List String)
      (i : Nat) (cands : List CandidateProfile) (tr : List CrawlEvent),
      cands.length < m → env i = AuthResponse.rateLimited →
      LinkedInAuthenticatedCrawler.search_people_loop env m (q :: qs) i cands tr =
        LinkedInAuthenticatedCrawler.search_people_loop env m qs (i + 1) cands
          (tr ++ [CrawlEvent.request q, CrawlEvent.sleep 60, CrawlEvent.politeDelay])) ∧
    (∀ (genv : Nat → GoogleResponse) (m : Nat) (q : String) (qs : List String)
      (i : Nat) (cands : List CandidateProfile) (tr : List CrawlEvent),
      cands.length < m → genv i = GoogleResponse.rateLimited →
      GoogleXRayCrawler.search_people_loop genv m (q :: qs) i cands tr =
        GoogleXRayCrawler.search_people_loop genv m qs (i + 1) cands
          (tr ++ [CrawlEvent.request ("site:linkedin.com/in \"" ++ q ++ "\""),
            CrawlEvent.sleep 30, CrawlEvent.politeDelay])) ∧
    (LinkedInAuthenticatedCrawler.search_people
      (fun i => if i = 0 then AuthResponse.rateLimited else AuthResponse.ok
        ⟨[{ dollarType := some "MiniProfile", publicIdentifier := some "r1",
            firstName := some "R", lastName := some "One" },
          { dollarType := some "MiniProfile", publicIdentifier := some "r2",
            firstName := some "R", lastName := some "Two" },
          { dollarType := some "MiniProfile", publicIdentifier := some "r3",
            firstName := some "R", lastName := some "Three" }]⟩)
      ⟨["py"], ["Dev"], ["MA"], [], [], false⟩ 25 =
      ([CrawlEvent.request "Dev py", CrawlEvent.sleep 60, CrawlEvent.politeDelay,
        CrawlEvent.request "py MA", CrawlEvent.politeDelay],
       Except.ok
        [{ name := "R One", profile_url := "https://www.linkedin.com/in/r1" },
         { name := "R Two", profile_url := "https://www.linkedin.com/in/r2" },
         { name := "R Three", profile_url := "https://www.linkedin.com/in/r3" }])) := by
  refine ⟨?_, ?_, ?_⟩
  · intro env m q qs i cands tr hlt henv
    rw [LinkedInAuthenticatedCrawler.search_people_loop,
      if_neg (Nat.not_le.mpr hlt), henv]
  · intro genv m q qs i cands tr hlt henv
    rw [GoogleXRayCrawler.search_people_loop,
      if_neg (Nat.not_le.mpr hlt), henv]
  · rfl

/-- C5 as stated is false at this input: `enrich_profile` receives an HTTP
200 response whose body fails to parse, and the decode exception escapes
(`Except.error`) instead of the absent value being returned — the
`try` block only catches `httpx.HTTPError`, not `resp.json()` failures. -/
theorem claim_C5_counterexample :
    LinkedInAuthenticatedCrawler.enrich_profile "alice"
      (ProfileFetch.response 200 none) = Except.error "json decode failure" ∧
    LinkedInAuthenticatedCrawler.enrich_profile "alice"
      (ProfileFetch.response 200 none) ≠ Except.ok none :=
  ⟨rfl, fun h => Except.noConfusion h⟩

/-- C5 (amended): `enrich_profile` returns the absent value on a transport
failure or a non-200 status, and a `CandidateProfile` when the fetch
succeeded with HTTP 200 and the body parsed; however, when the 200 body
fails to parse, the exception propagates to the caller instead of the
absent value being returned. -/
theorem claim_C5 : ∀ (pid : String) (status : Nat) (body : Option VoyagerData),
    LinkedInAuthenticatedCrawler.enrich_profile pid ProfileFetch.transportFailure =
      Except.ok none ∧
    (status ≠ 200 →
      LinkedInAuthenticatedCrawler.enrich_profile pid
        (ProfileFetch.response status body) = Except.ok none) ∧
    (∀ data, body = some data →
      LinkedInAuthenticatedCrawler.enrich_profile pid
        (ProfileFetch.response 200 body) =
        Except.ok (some (LinkedInAuthenticatedCrawler.parse_full_profile data pid))) ∧
    (body = none →
      LinkedInAuthenticatedCrawler.enrich_profile pid
        (ProfileFetch.response 200 body) = Except.error "json decode failure") := by
  intro pid status body
  refine ⟨rfl, ?_, ?_, ?_⟩
  · intro h
    simp [LinkedInAuthenticatedCrawler.enrich_profile, h]
  · intro data h
    subst h
    rfl
  · intro h
    subst h
    rfl

theorem claim_C5_witness :
    LinkedInAuthenticatedCrawler.enrich_profile "bob" (ProfileFetch.response 404 none) =
      Except.ok none :=
  (claim_C5 "bob" 404 none).2.1 (by decide)

theorem parse_search_results_skip (pre post : List VoyagerItem) (item : VoyagerItem)
    (h : LinkedInAuthenticatedCrawler.itemProfile item = none) :
    LinkedInAuthenticatedCrawler.parse_search_results ⟨pre ++ item :: post⟩ =
      LinkedInAuthenticatedCrawler.parse_search_results ⟨pre ++ post⟩ := by
  simp only [LinkedInAuthenticatedCrawler.parse_search_results, List.foldl_append,
    List.foldl_cons, h]

theorem itemProfile_name_empty (item : VoyagerItem)
    (h1 : ∀ c ∈ (item.firstName.getD "").toList, c.isWhitespace)
    (h2 : ∀ c ∈ (item.lastName.getD "").toList, c.isWhitespace) :
    LinkedInAuthenticatedCrawler.itemProfile item = none := by
  have hname : pyStrip (pyJoin " "
      ([item.firstName.getD "", item.lastName.getD ""].filter (fun p => p ≠ ""))) = "" := by
    apply (pyStrip_eq_empty_iff _).mpr
    apply mem_of_mem_pyJoin_space
    intro x hx
    have hx1 := (List.mem_filter.mp hx).1
    rcases (by simpa using hx1 :
        x = item.firstName.getD "" ∨ x = item.lastName.getD "") with h | h
    · subst h; exact h1
    · subst h; exact h2
  simp only [LinkedInAuthenticatedCrawler.itemProfile, hname]
  split
  · split
    · rfl
    · simp
  · rfl

theorem fullProfile_profileData_const (pid : String) :
    ∀ (items : List VoyagerItem) (st : LinkedInAuthenticatedCrawler.FullProfileState),
      (∀ item ∈ items, ¬(strContains (item.dollarType.getD "") "Profile" = true ∧
        item.publicIdentifier = some pid)) →
      (items.foldl (LinkedInAuthenticatedCrawler.fullProfileStep pid) st).profileData =
        st.profileData := by
  intro items
  induction items with
  | nil => intro st _; rfl
  | cons item items ih =>
      intro st h
      rw [List.foldl_cons, ih _ (fun i hi => h i (List.mem_cons_of_mem _ hi))]
      have hni := h item (List.mem_cons_self _ _)
      simp only [LinkedInAuthenticatedCrawler.fullProfileStep]
      split
      · rename_i hcond
        exact absurd hcond hni
      · split
        · rfl
        · split
          · rfl
          · split
            · cases item.name with
              | none => rfl
              | some n => dsimp only; split <;> rfl
            · rfl

/-- C6 as stated is false on the full-profile path: a profile response
from which no name is recoverable (empty `included` array) still produces
a `CandidateProfile` — with the placeholder name `"Unknown"` — and
`enrich_profile` hands it to the caller, rather than skipping the
record. -/
theorem claim_C6_counterexample :
    (LinkedInAuthenticatedCrawler.parse_full_profile ⟨[]⟩ "ghost").name = "Unknown" ∧
    LinkedInAuthenticatedCrawler.enrich_profile "ghost"
      (ProfileFetch.response 200 (some ⟨[]⟩)) =
      Except.ok (some (LinkedInAuthenticatedCrawler.parse_full_profile ⟨[]⟩ "ghost")) :=
  ⟨rfl, rfl⟩

/-- C6 (amended): on the search-result path a record with no usable name
(first and last name absent or whitespace-only) is silently skipped and
contributes no `CandidateProfile`; the full-profile path, however, never
skips — when no profile record with a usable name matches, it still
produces a `CandidateProfile` whose name is the placeholder `"Unknown"`. -/
theorem claim_C6 :
    (∀ (item : VoyagerItem),
      (∀ c ∈ (item.firstName.getD "").toList, c.isWhitespace) →
      (∀ c ∈ (item.lastName.getD "").toList, c.isWhitespace) →
      LinkedInAuthenticatedCrawler.itemProfile item = none ∧
      (∀ pre post : List VoyagerItem,
        LinkedInAuthenticatedCrawler.parse_search_results ⟨pre ++ item :: post⟩ =
          LinkedInAuthenticatedCrawler.parse_search_results ⟨pre ++ post⟩)) ∧
    (∀ (data : VoyagerData) (pid : String),
      (∀ item ∈ data.included,
        ¬(strContains (item.dollarType.getD "") "Profile" = true ∧
          item.publicIdentifier = some pid)) →
      (LinkedInAuthenticatedCrawler.parse_full_profile data pid).name = "Unknown") := by
  constructor
  · intro item h1 h2
    have hnone := itemProfile_name_empty item h1 h2
    exact ⟨hnone, fun pre post => parse_search_results_skip pre post item hnone⟩
  · intro data pid h
    have hst := fullProfile_profileData_const pid data.included ⟨{}, [], [], []⟩ h
    simp [LinkedInAuthenticatedCrawler.parse_full_profile, hst, pyJoin]

theorem claim_C6_witness :
    LinkedInAuthenticatedCrawler.itemProfile
      { dollarType := some "MiniProfile", publicIdentifier := some "r9",
        firstName := some " ", lastName := none } = none ∧
    LinkedInAuthenticatedCrawler.parse_search_results
      ⟨[{ dollarType := some "MiniProfile", publicIdentifier := some "r9",
          firstName := some " ", lastName := none }]⟩ =
      LinkedInAuthenticatedCrawler.parse_search_results ⟨[]⟩ := by
  have h := (claim_C6.1
    { dollarType := some "MiniProfile", publicIdentifier := some "r9",
      firstName := some " ", lastName := none }
    (by decide) (by decide))
  exact ⟨h.1, h.2 [] []⟩

theorem toList_mk (l : List Char) : (String.mk l).toList = l := rfl

theorem canonPath_chars (href : String) :
    ∀ ch ∈ (GoogleXRayCrawler.canonPath href).toList, ch ≠ '?' ∧ ch ≠ '#' := by
  intro ch hch
  have h1 : ch ∈ (GoogleXRayCrawler.urlPath href).toList := by
    simp only [GoogleXRayCrawler.canonPath, GoogleXRayCrawler.rstripSlash,
      toList_mk] at hch
    exact List.mem_reverse.mp
      ((List.dropWhile_sublist _).subset (List.mem_reverse.mp hch))
  rw [GoogleXRayCrawler.urlPath, toList_mk] at h1
  have hq := List.mem_takeWhile_imp h1
  have h3 := (List.takeWhile_sublist _).subset h1
  have hh := List.mem_takeWhile_imp h3
  exact ⟨by simpa using hq, by simpa using hh⟩

theorem processAnchor_url (a : Anchor) (p : CandidateProfile)
    (h : GoogleXRayCrawler.processAnchor a = some p) :
    p.profile_url = "https://www.linkedin.com" ++
      GoogleXRayCrawler.canonPath (GoogleXRayCrawler.unwrapHref a.href) ∧
    GoogleXRayCrawler.publicIdOfPath
      (GoogleXRayCrawler.canonPath (GoogleXRayCrawler.unwrapHref a.href)) ≠ "" := by
  simp only [GoogleXRayCrawler.processAnchor] at h
  split at h
  · split at h
    · exact absurd h (by simp)
    · rename_i hid
      refine ⟨?_, hid⟩
      rw [← Option.some.inj h]
  · exact absurd h (by simp)

/-- C7: the fallback parser canonicalizes every kept link to
`https://www.linkedin.com` plus the parsed path with query parameters and
trailing slashes dropped, derives the profile identity purely from the
path segment after `/in/` (links with no recoverable identifier are
discarded), and consequently two links to the same profile differing only
by a tracking query parameter yield exactly one profile after
deduplication. -/
theorem claim_C7 :
    (∀ (a : Anchor) (p : CandidateProfile),
      GoogleXRayCrawler.processAnchor a = some p →
      p.profile_url = "https://www.linkedin.com" ++
        GoogleXRayCrawler.canonPath (GoogleXRayCrawler.unwrapHref a.href) ∧
      GoogleXRayCrawler.publicIdOfPath
        (GoogleXRayCrawler.canonPath (GoogleXRayCrawler.unwrapHref a.href)) ≠ "") ∧
    (∀ a : Anchor,
      GoogleXRayCrawler.publicIdOfPath
        (GoogleXRayCrawler.canonPath (GoogleXRayCrawler.unwrapHref a.href)) = "" →
      GoogleXRayCrawler.processAnchor a = none) ∧
    (dedupByUrl (GoogleXRayCrawler.parse_google_results
        [⟨"https://www.linkedin.com/in/jane-doe?trk=pub",
          some "Jane Doe - Staff Engineer - LinkedIn"⟩,
         ⟨"https://www.linkedin.com/in/jane-doe",
          some "Jane Doe - Staff Engineer - LinkedIn"⟩]) =
      [{ name := "Jane Doe", headline := some "Staff Engineer",
         profile_url := "https://www.linkedin.com/in/jane-doe",
         current_title := some "Staff Engineer" }]) := by
  refine ⟨fun a p h => processAnchor_url a p h, ?_, ?_⟩
  · intro a hid
    simp [GoogleXRayCrawler.processAnchor, hid]
  · decide

theorem claim_C7_witness :
    ({ name := "Jane Doe", headline := some "Staff Engineer", profile_url := "https://www.linkedin.com/in/jane-doe", current_title := some "Staff Engineer" } : CandidateProfile).profile_url =
      "https://www.linkedin.com" ++ GoogleXRayCrawler.canonPath
        (GoogleXRayCrawler.unwrapHref "https://www.linkedin.com/in/jane-doe?trk=pub") ∧
    GoogleXRayCrawler.publicIdOfPath (GoogleXRayCrawler.canonPath
      (GoogleXRayCrawler.unwrapHref
        "https://www.linkedin.com/in/jane-doe?trk=pub")) ≠ "" :=
  claim_C7.1 ⟨"https://www.linkedin.com/in/jane-doe?trk=pub",
    some "Jane Doe - Staff Engineer - LinkedIn"⟩
    { name := "Jane Doe", headline := some "Staff Engineer",
      profile_url := "https://www.linkedin.com/in/jane-doe",
      current_title := some "Staff Engineer" } (by decide)

/-- C10: every profile produced by the fallback parser has a `profile_url`
that begins with `https://www.linkedin.com` and contains no query string
or fragment (the host is unconditionally rewritten); and since the link
filter is a bare substring test for `linkedin.com/in/` on the whole href,
a link on a foreign host that merely contains that substring in its path
passes the filter and is rewritten onto the `www.linkedin.com` host. -/
theorem claim_C10 :
    (∀ (a : Anchor) (p : CandidateProfile),
      GoogleXRayCrawler.processAnchor a = some p →
      (∃ rest, p.profile_url = "https://www.linkedin.com" ++ rest) ∧
      (∀ ch ∈ p.profile_url.toList, ch ≠ '?' ∧ ch ≠ '#')) ∧
    (GoogleXRayCrawler.processAnchor
        ⟨"https://evil.example/linkedin.com/in/bob", none⟩ =
      some { name := "Bob",
             profile_url := "https://www.linkedin.com/linkedin.com/in/bob" }) := by
  constructor
  · intro a p h
    obtain ⟨hurl, -⟩ := processAnchor_url a p h
    refine ⟨⟨_, hurl⟩, ?_⟩
    intro ch hch
    rw [hurl] at hch
    rw [show ("https://www.linkedin.com" ++ GoogleXRayCrawler.canonPath
        (GoogleXRayCrawler.unwrapHref a.href)).toList =
        "https://www.linkedin.com".toList ++ (GoogleXRayCrawler.canonPath
          (GoogleXRayCrawler.unwrapHref a.href)).toList from
      String.data_append _ _] at hch
    rcases List.mem_append.mp hch with hc | hc
    · constructor
      · intro he; subst he; exact absurd hc (by decide)
      · intro he; subst he; exact absurd hc (by decide)
    · exact canonPath_chars _ ch hc
  · decide

theorem claim_C10_witness :
    (∃ rest, ({ name := "Bob", profile_url := "https://www.linkedin.com/linkedin.com/in/bob" } : CandidateProfile).profile_url = "https://www.linkedin.com" ++ rest) ∧
    (∀ ch ∈ ({ name := "Bob", profile_url := "https://www.linkedin.com/linkedin.com/in/bob" } : CandidateProfile).profile_url.toList, ch ≠ '?' ∧ ch ≠ '#') :=
  claim_C10.1 ⟨"https://evil.example/linkedin.com/in/bob", none⟩
    { name := "Bob", profile_url := "https://www.linkedin.com/linkedin.com/in/bob" }
    (by decide)

/-- C8 as stated is false at this input: the snippet `" - Engineer"`
contains the delimiter and its segment before the first delimiter is empty,
yet the produced name is the humanized URL slug `"John Doe"` — the code
falls back whenever the stripped leading segment is blank
(`parts[0].strip() or name`), it does not take the raw segment. -/
theorem claim_C8_counterexample :
    strContains " - Engineer" " - " = true ∧
    pySplit " - ".toList " - Engineer".toList = [[], "Engineer".toList] ∧
    (GoogleXRayCrawler.snippetNameHeadline " - Engineer" "john-doe").1 = "John Doe" ∧
    "John Doe" ≠ "" :=
  ⟨by decide, by decide, by decide, by decide⟩

/-- C8 (amended): without the `" - "` delimiter the name is the humanized
path segment and the headline is absent; with the delimiter, the name is
the *stripped* segment before the first delimiter unless that strip is
blank — in which case the humanized path segment is used — and the
headline is the stripped segment between the first and second delimiters
(the stripped remainder when the delimiter occurs only once).  Leading
segments are characterized positionally: `pre` is the text before the
leftmost delimiter occurrence. -/
theorem claim_C8 : ∀ (text pid : String),
    (strContains text " - " = false →
      GoogleXRayCrawler.snippetNameHeadline text pid =
        (GoogleXRayCrawler.humanizeId pid, none)) ∧
    (∀ pre rest, text.toList = pre ++ (" - ".toList ++ rest) →
      (∀ p2 r2, text.toList = p2 ++ (" - ".toList ++ r2) → pre.length ≤ p2.length) →
      ((GoogleXRayCrawler.snippetNameHeadline text pid).1 =
        if pyStrip (String.mk pre) = "" then GoogleXRayCrawler.humanizeId pid
        else pyStrip (String.mk pre)) ∧
      (hasInfix " - ".toList rest = false →
        (GoogleXRayCrawler.snippetNameHeadline text pid).2 =
          some (pyStrip (String.mk rest))) ∧
      (∀ p2 r2, rest = p2 ++ (" - ".toList ++ r2) →
        (∀ p3 r3, rest = p3 ++ (" - ".toList ++ r3) → p2.length ≤ p3.length) →
        (GoogleXRayCrawler.snippetNameHeadline text pid).2 =
          some (pyStrip (String.mk p2)))) := by
  intro text pid
  constructor
  · intro h
    simp [GoogleXRayCrawler.snippetNameHeadline, h]
  · intro pre rest hdec hmin
    have htrue : strContains text " - " = true :=
      (hasInfix_iff_exists _ _).mpr ⟨pre, rest, hdec⟩
    have hsplit : pySplit " - ".toList text.toList =
        pre :: pySplit " - ".toList rest :=
      pySplit_minimal " - ".toList (by decide) pre rest text.toList hdec hmin
    obtain ⟨p1, ps, hps⟩ : ∃ p1 ps, pySplit " - ".toList rest = p1 :: ps := by
      cases hx : pySplit " - ".toList rest with
      | nil => exact absurd hx (pySplit_ne_nil " - ".toList rest)
      | cons a as => exact ⟨a, as, rfl⟩
    have hsplitN : pySplit [' ', '-', ' '] text.data =
        pre :: pySplit [' ', '-', ' '] rest := hsplit
    have hpsN : pySplit [' ', '-', ' '] rest = p1 :: ps := hps
    refine ⟨?_, ?_, ?_⟩
    · simp [GoogleXRayCrawler.snippetNameHeadline, htrue, hsplitN, hpsN]
    · intro hni
      have honeN : pySplit [' ', '-', ' '] rest = [rest] :=
        pySplit_of_not_infix " - ".toList rest hni
      simp [GoogleXRayCrawler.snippetNameHeadline, htrue, hsplitN, honeN]
    · intro p2 r2 hdec2 hmin2
      have hsplit2N : pySplit [' ', '-', ' '] rest =
          p2 :: pySplit [' ', '-', ' '] r2 :=
        pySplit_minimal " - ".toList (by decide) p2 r2 rest hdec2 hmin2
      simp [GoogleXRayCrawler.snippetNameHeadline, htrue, hsplitN, hsplit2N]

theorem claim_C8_witness :
    ((GoogleXRayCrawler.snippetNameHeadline "Jane - Dev" "x").1 =
      if pyStrip (String.mk "Jane".toList) = "" then GoogleXRayCrawler.humanizeId "x"
      else pyStrip (String.mk "Jane".toList)) ∧
    ((GoogleXRayCrawler.snippetNameHeadline "Jane - Dev" "x").2 =
      some (pyStrip (String.mk "Dev".toList))) := by
  have h := (claim_C8 "Jane - Dev" "x").2 "Jane".toList "Dev".toList (by decide)
    (minimal_of_no_early_match " - ".toList "Jane - Dev".toList "Jane".toList.length
      (by decide))
  exact ⟨h.1, h.2.1 (by decide)⟩

theorem claim_C4_witness :
    LinkedInAuthenticatedCrawler.search_people_loop
      (fun _ => AuthResponse.rateLimited) 3 ["q1", "q2"] 0 [] [] =
    LinkedInAuthenticatedCrawler.search_people_loop
      (fun _ => AuthResponse.rateLimited) 3 ["q2"] 1 []
      [CrawlEvent.request "q1", CrawlEvent.sleep 60, CrawlEvent.politeDelay] :=
  claim_C4.1 (fun _ => AuthResponse.rateLimited) 3 "q1" ["q2"] 0 [] []
    (by decide) rfl

end Crawler
